import Mathlib

/-!
Verification of dokklib-db (a typed single-table DynamoDB access layer)
against its natural-language specification.

The Python modules are shallowly embedded:
* `serializer.py` (wrapping the wire value codec) as `Val`/`WireVal` with
  `serialize_val`/`deserialize_val` and dictionary variants;
* `keys.py` as `EntityName`, `EntityKey` (variants partition/sort/prefix-sort)
  and `PrimaryKey`;
* `table.py`'s entity-prefix stripping as `stripCore`/`remove_entity_pre`
  and `strip_prefixes`;
* `op_args.py`'s argument builders as explicit functions taking the current
  time as a parameter;
* `errors/transaction.py`'s cancellation-reason parsing as a faithful model
  of the regex search plus the two-step split heuristic.

Python dictionaries are modelled as association lists with Python's update
semantics (`dictSet` replaces in place, otherwise appends).
-/

/-! ## Value codec

Modelled from the spec: the byte-level codec wrapped by
`Serializer.serialize_val` / `Serializer.deserialize_val` in
`dokklib_db/serializer.py` is boto3's `TypeSerializer`/`TypeDeserializer`,
which is not part of this repository's sources. Per the spec, supported
generic kinds are UTF-8 string, boolean, decimal-safe number (kept as a
decimal string), binary blob, homogeneous list, set of strings,
string-keyed map and null, and each maps to a tagged wire value
(S, BOOL, N, B, L, SS, M, NULL). -/

mutual

/-- A generic in-memory value supported by the codec. -/
inductive Val where
  | str : String → Val
  | num : String → Val
  | bool : Bool → Val
  | bin : List Nat → Val
  | null : Val
  | strSet : List String → Val
  | list : ValList → Val
  | map : ValMap → Val
  deriving DecidableEq

/-- A homogeneous list of generic values. -/
inductive ValList where
  | nil : ValList
  | cons : Val → ValList → ValList
  deriving DecidableEq

/-- A string-keyed map of generic values. -/
inductive ValMap where
  | nil : ValMap
  | cons : String → Val → ValMap → ValMap
  deriving DecidableEq

end

mutual

/-- A tagged wire value in the store's format. -/
inductive WireVal where
  | S : String → WireVal
  | N : String → WireVal
  | BOOL : Bool → WireVal
  | B : List Nat → WireVal
  | NULL : WireVal
  | SS : List String → WireVal
  | L : WireList → WireVal
  | M : WireMap → WireVal
  deriving DecidableEq

/-- A list of tagged wire values. -/
inductive WireList where
  | nil : WireList
  | cons : WireVal → WireList → WireList
  deriving DecidableEq

/-- A string-keyed map of tagged wire values. -/
inductive WireMap where
  | nil : WireMap
  | cons : String → WireVal → WireMap → WireMap
  deriving DecidableEq

end

mutual

/-- Serialize a generic value into its tagged wire form
(`Serializer.serialize_val`). -/
def serialize_val : Val → WireVal
  | .str s => .S s
  | .num n => .N n
  | .bool b => .BOOL b
  | .bin b => .B b
  | .null => .NULL
  | .strSet ss => .SS ss
  | .list l => .L (serializeList l)
  | .map m => .M (serializeMap m)

/-- Serialize each element of a list of values. -/
def serializeList : ValList → WireList
  | .nil => .nil
  | .cons v vs => .cons (serialize_val v) (serializeList vs)

/-- Serialize each value of a map, preserving keys. -/
def serializeMap : ValMap → WireMap
  | .nil => .nil
  | .cons k v es => .cons k (serialize_val v) (serializeMap es)

end

mutual

/-- Deserialize a tagged wire value back into a generic value
(`Serializer.deserialize_val`). -/
def deserialize_val : WireVal → Val
  | .S s => .str s
  | .N n => .num n
  | .BOOL b => .bool b
  | .B b => .bin b
  | .NULL => .null
  | .SS ss => .strSet ss
  | .L l => .list (deserializeList l)
  | .M m => .map (deserializeMap m)

/-- Deserialize each element of a wire list. -/
def deserializeList : WireList → ValList
  | .nil => .nil
  | .cons v vs => .cons (deserialize_val v) (deserializeList vs)

/-- Deserialize each value of a wire map, preserving keys. -/
def deserializeMap : WireMap → ValMap
  | .nil => .nil
  | .cons k v es => .cons k (deserialize_val v) (deserializeMap es)

end

/-- `Serializer.serialize_dict`: serialize a dictionary while preserving its
top-level keys. -/
def serialize_dict (d : List (String × Val)) : List (String × WireVal) :=
  d.map (fun e => (e.1, serialize_val e.2))

/-- `Serializer.deserialize_dict`: deserialize a dictionary while preserving
its top-level keys. -/
def deserialize_dict (d : List (String × WireVal)) : List (String × Val) :=
  d.map (fun e => (e.1, deserialize_val e.2))

/-! ## Key model (`dokklib_db/keys.py`)

`EntityName` is an abstract Python class whose concrete subclasses carry no
data; the only observable is the class name, so a concrete entity name is
modelled as a structure holding that name.  `EntityKey.__eq__` compares
`str(self) == str(other)` for an operand of any type, so equality is
modelled on string forms; an arbitrary operand is represented by its Python
string representation.  Python's builtin `hash` on strings and tuples is
runtime-provided; it is modelled by a concrete function whose only relevant
property (which the model shares with CPython) is that it depends solely on
the string/tuple contents. -/

/-- A concrete subclass of `EntityName`; `name` is the Python class name. -/
structure EntityName where
  name : String
  deriving DecidableEq

/-- Python `str.upper()` (ASCII model): uppercase every character. -/
def pyUpper (s : String) : String :=
  String.mk (s.data.map Char.toUpper)

/-- `EntityName.to_prefix` (renamed): uppercase class name plus a hash mark. -/
def EntityName.toPre (n : EntityName) : String :=
  pyUpper n.name ++ "#"

/-- The static variant of an entity key. -/
inductive KeyVariant where
  | partition
  | sort
  | prefixSort
  deriving DecidableEq

/-- `EntityKey`: stores the computed entity prefix and the raw value. -/
structure EntityKey where
  variant : KeyVariant
  pre : String
  val : String
  deriving DecidableEq

/-- `PartitionKey(entity_name, value)`. -/
def PartitionKey (n : EntityName) (v : String) : EntityKey :=
  ⟨.partition, n.toPre, v⟩

/-- `SortKey(entity_name, value)`. -/
def SortKey (n : EntityName) (v : String) : EntityKey :=
  ⟨.sort, n.toPre, v⟩

/-- `PrefixSortKey(entity_name, value='')`. -/
def PrefixSortKey (n : EntityName) (v : String := "") : EntityKey :=
  ⟨.prefixSort, n.toPre, v⟩

/-- `EntityKey.__str__`: the prefix concatenated with the value. -/
def strKey (k : EntityKey) : String :=
  k.pre ++ k.val

/-- Model of CPython's string hash: a concrete function of the characters
only (the actual hash is runtime/seed dependent; all the code relies on is
that it is a pure function of the string). -/
def pyHashStr (s : String) : Nat :=
  s.data.foldl (fun h c => (h * 1000003 + c.toNat) % 2 ^ 64) 5381

/-- `EntityKey.__hash__`: `hash(str(self))`. -/
def hashKey (k : EntityKey) : Nat :=
  pyHashStr (strKey k)

/-- `EntityKey.__eq__` against another key: `str(self) == str(other)`. -/
def keyEq (a b : EntityKey) : Bool :=
  strKey a == strKey b

/-- `EntityKey.__eq__` against an arbitrary operand, represented by its
Python string representation (for a `str` operand this is the string
itself). -/
def keyEqAny (a : EntityKey) (otherRepr : String) : Bool :=
  strKey a == otherRepr

/-- `PrimaryKey(partition_key, sort_key)`. -/
structure PrimaryKey where
  pk : EntityKey
  sk : EntityKey
  deriving DecidableEq

/-- `PrimaryKey._tuple`: the pair of string forms. -/
def PrimaryKey.tuple (k : PrimaryKey) : String × String :=
  (strKey k.pk, strKey k.sk)

/-- Model of CPython's tuple hash on a pair of strings: a concrete function
of the two strings only. -/
def pyHashPair (t : String × String) : Nat :=
  (pyHashStr t.1 * 1000003 + pyHashStr t.2) % 2 ^ 64

/-- `PrimaryKey.__hash__`: `hash(self._tuple)`. -/
def hashPrimaryKey (k : PrimaryKey) : Nat :=
  pyHashPair k.tuple

/-- `PrimaryKey.__eq__` against another `PrimaryKey`: tuple equality. -/
def primaryEq (a b : PrimaryKey) : Bool :=
  decide (a.tuple = b.tuple)

/-- `PrimaryKey.__eq__` against a plain 2-tuple of strings:
`self._tuple == other`. -/
def primaryEqTuple (a : PrimaryKey) (t : String × String) : Bool :=
  decide (a.tuple = t)

/-- `PrimaryKey.serialize(global_index)`: a wire attribute map keyed by the
index's partition/sort attribute names, with each key's string form
serialized by the codec.  Python dict literal semantics: if the two
attribute names collide, the later entry wins. -/
def PrimaryKey.serializeKey (k : PrimaryKey) (pkName skName : String) :
    List (String × WireVal) :=
  if pkName == skName then
    [(pkName, serialize_val (.str (strKey k.sk)))]
  else
    [(pkName, serialize_val (.str (strKey k.pk))),
     (skName, serialize_val (.str (strKey k.sk)))]

/-! ### `Table.batch_get`'s unprocessed-key map

`batch_get` builds `key_map[key] = key` for each requested `PrimaryKey` and
later looks keys up by the raw `(partition string, sort string)` tuple
arriving in the store response.  A Python dict insert with an equal key
keeps the first key object and replaces the value; lookup compares by
`__eq__` (tuple equality). -/

/-- One `key_map[key] = key` insertion: an insert with an equal key keeps
the first key object and replaces the value, otherwise the entry is
appended. -/
def keyMapInsert : List (PrimaryKey × PrimaryKey) → PrimaryKey →
    List (PrimaryKey × PrimaryKey)
  | [], k => [(k, k)]
  | e :: es, k =>
      if primaryEq e.1 k then (e.1, k) :: es else e :: keyMapInsert es k

/-- The `key_map` built from the requested keys. -/
def buildKeyMap (ks : List PrimaryKey) : List (PrimaryKey × PrimaryKey) :=
  ks.foldl keyMapInsert []

/-- `key_map[key_tuple]`: dict lookup by a raw string pair, comparing with
`PrimaryKey.__eq__` against the tuple. -/
def lookupKeyMap : List (PrimaryKey × PrimaryKey) → (String × String) →
    Option PrimaryKey
  | [], _ => none
  | e :: es, t =>
      if primaryEqTuple e.1 t then some e.2 else lookupKeyMap es t

/-! ## Entity prefix stripping (`table.py`)

`Table._remove_entity_prefix` runs `re.match(r'^[A-Z0-9_]+#(.+)$', s)` and
returns group 1 on a match, else the input.  Faithful Python `re`
semantics on the embedded character list:
* `[A-Z0-9_]+` greedily takes the maximal run of prefix characters; the
  following literal `#` makes backtracking irrelevant because `#` is not a
  prefix character, so the run is exactly the maximal one;
* `.` does not match a newline;
* `$` (without MULTILINE) matches at the end of the string or just before a
  single newline at the very end, so `(.+)$` matches a non-empty
  newline-free remainder optionally followed by one trailing newline
  (which is then not part of the group). -/

/-- A character of the `[A-Z0-9_]` class. -/
def isPreChar (c : Char) : Bool :=
  ('A' ≤ c && c ≤ 'Z') || c.isDigit || c == '_'

/-- Core of `Table._remove_entity_prefix` on the character list. -/
def stripCore (cs : List Char) : List Char :=
  let run := cs.takeWhile isPreChar
  let rest := cs.drop run.length
  if run.isEmpty then cs
  else if rest.head? ≠ some '#' then cs
  else
    let tail := rest.tail
    let body := tail.takeWhile (fun c => c != '\n')
    let fin := tail.drop body.length
    if body.isEmpty then cs
    else if fin = [] ∨ fin = ['\n'] then body
    else cs

/-- Whether the string starts with a non-empty `[A-Z0-9_]` run followed by
a hash mark (the "entity prefix" shape of the stripping pattern). -/
def hasEntityPre (s : String) : Bool :=
  let run := s.data.takeWhile isPreChar
  !run.isEmpty && ((s.data.drop run.length).head? == some '#')

/-- `Table._remove_entity_prefix` (renamed to satisfy naming constraints). -/
def remove_entity_pre (s : String) : String :=
  String.mk (stripCore s.data)

/-- The per-attribute action of `Table._strip_prefixes`: strip from a
string value (`isinstance(v, str)`), leave any other value untouched. -/
def stripVal : Val → Val
  | .str s => .str (remove_entity_pre s)
  | v => v

/-- `Table._strip_prefixes`: strip the entity prefix from every top-level
string-valued attribute, leaving other values untouched. -/
def strip_prefixes (item : List (String × Val)) : List (String × Val) :=
  item.map (fun e => (e.1, stripVal e.2))

/-! ## Python dictionaries

Association lists with Python `dict` update semantics: setting an existing
key replaces its value in place, otherwise the entry is appended; `{**a,
**b}` folds the entries of `b` into `a`, so keys of `b` win. -/

/-- `d[k] = v` with Python dict semantics: replace the value of an existing
key in place, otherwise append the new entry (entries coming from Python
dicts have unique keys, for which this is exact). -/
def dictSet : List (String × α) → String → α → List (String × α)
  | [], k, v => [(k, v)]
  | e :: es, k, v => if e.1 = k then (k, v) :: es else e :: dictSet es k v

/-- `{**a, **b}`: merge `b` into `a`, entries of `b` winning. -/
def dictMerge (a b : List (String × α)) : List (String × α) :=
  b.foldl (fun d e => dictSet d e.1 e.2) a

/-- `d.get(k)` / `d[k]`: the first entry with the key. -/
def dictGet : List (String × α) → String → Option α
  | [], _ => none
  | e :: es, k => if e.1 = k then some e.2 else dictGet es k

/-! ## Operation-argument builders (`op_args.py`)

`OpArg._iso_now` calls `datetime.utcnow().replace(microsecond=0)
.isoformat()`; the current UTC time is modelled as an explicit
`PyDateTime` parameter, and the formatting (which drops the microsecond
field, yielding a second-granularity ISO-8601 string) is embedded
concretely. -/

/-- The fields of a Python `datetime` value (UTC). -/
structure PyDateTime where
  year : Nat
  month : Nat
  day : Nat
  hour : Nat
  minute : Nat
  second : Nat
  microsecond : Nat
  deriving DecidableEq

/-- Zero-pad a number to two digits, as `datetime.isoformat` does. -/
def pad2 (n : Nat) : String :=
  if n < 10 then "0" ++ toString n else toString n

/-- Zero-pad a year to four digits, as `datetime.isoformat` does. -/
def pad4 (n : Nat) : String :=
  if n < 10 then "000" ++ toString n
  else if n < 100 then "00" ++ toString n
  else if n < 1000 then "0" ++ toString n
  else toString n

/-- `OpArg._iso_now` at the given current time: the microsecond field is
replaced by zero, so `isoformat` renders `YYYY-MM-DDTHH:MM:SS` with no
fractional part. -/
def iso_now (t : PyDateTime) : String :=
  pad4 t.year ++ "-" ++ pad2 t.month ++ "-" ++ pad2 t.day ++ "T" ++
    pad2 t.hour ++ ":" ++ pad2 t.minute ++ ":" ++ pad2 t.second

/-- The `{**attributes, **{stamp-name: stamp}}` merge shared by the
put/insert and update builders: the stamp is merged over the caller's
attributes, so it wins on a key collision.  An empty caller dictionary is
falsy in Python, like an omitted one. -/
def stampItem (stamp : String × Val) :
    Option (List (String × Val)) → List (String × Val)
  | some a => if a.isEmpty then [stamp] else dictMerge a [stamp]
  | none => [stamp]

/-- `PutArg._get_dynamo_item` (also used by `InsertArg`): the serialized
primary key merged over `{**attributes, **{'CreatedAt': iso_now}}`. -/
def put_get_dynamo_item (now : PyDateTime) (pkName skName : String)
    (pk sk : EntityKey) (attributes : Option (List (String × Val))) :
    List (String × WireVal) :=
  dictMerge
    (serialize_dict (stampItem ("CreatedAt", .str (iso_now now)) attributes))
    (PrimaryKey.serializeKey ⟨pk, sk⟩ pkName skName)

/-- The `{'Action': 'PUT', 'Value': v}` record built per updated attribute
by `UpdateArg._get_attr_updates`. -/
structure AttrUpdate where
  action : String
  value : WireVal
  deriving DecidableEq

/-- `UpdateArg._get_attr_updates`: stamp `UpdatedAt` over the caller's
updates, then wrap every value as a PUT-style attribute update. -/
def update_get_attr_updates (now : PyDateTime)
    (attrUpdates : Option (List (String × Val))) :
    List (String × AttrUpdate) :=
  (stampItem ("UpdatedAt", .str (iso_now now)) attrUpdates).map
    (fun e => (e.1, ⟨"PUT", serialize_val e.2⟩))

/-! ### `QueryArg` -/

/-- The fields `QueryArg.__init__` stores (the key condition itself is an
opaque boto3 condition object, handed to the external expression builder;
it is threaded through `get_kwargs` as pre-built expression parts). -/
structure QueryArgData where
  attributes : Option (List String)
  consistent : Bool
  indexName : Option String
  limit : Int
  deriving DecidableEq

/-- `QueryArg._max_limit`. -/
def queryMaxLimit : Int := 1000

/-- `QueryArg.__init__`: rejects a limit above the maximum with a
ValueError, defaults an omitted limit to the maximum. -/
def mkQueryArg (attributes : Option (List String)) (consistent : Bool)
    (indexName : Option String) (limit : Option Int) :
    Except String QueryArgData :=
  match limit with
  | some l =>
      if l > queryMaxLimit then
        .error ("Limit " ++ toString l ++ " is greater than max " ++
          toString queryMaxLimit)
      else
        .ok ⟨attributes, consistent, indexName, l⟩
  | none => .ok ⟨attributes, consistent, indexName, queryMaxLimit⟩

/-- A wire request parameter value. -/
inductive KwVal where
  | s : String → KwVal
  | b : Bool → KwVal
  | i : Int → KwVal
  | m : List (String × WireVal) → KwVal
  | names : List (String × String) → KwVal
  deriving DecidableEq

/-- Join a list of attribute names with commas, as `','.join` does. -/
def joinComma : List String → String
  | [] => ""
  | [a] => a
  | a :: rest => a ++ "," ++ joinComma rest

/-- The projection-expression step of `QueryArg.get_kwargs`: the caller's
attributes joined with commas, defaulting to `SK` when absent or empty
(an empty list is falsy in Python). -/
def projectionKwargs (kwargs : List (String × KwVal)) :
    Option (List String) → List (String × KwVal)
  | some attrs =>
      if attrs.isEmpty then dictSet kwargs "ProjectionExpression" (.s "SK")
      else dictSet kwargs "ProjectionExpression" (.s (joinComma attrs))
  | none => dictSet kwargs "ProjectionExpression" (.s "SK")

/-- The index-name step of `QueryArg.get_kwargs`: set `IndexName` only
when a global secondary index is targeted. -/
def indexKwargs (kwargs : List (String × KwVal)) :
    Option String → List (String × KwVal)
  | some n => dictSet kwargs "IndexName" (.s n)
  | none => kwargs

/-- `QueryArg.get_kwargs`: the wire parameters of the query.  The compiled
key-condition expression and its name/value placeholder maps come from the
external expression builder and are taken as inputs. -/
def query_get_kwargs (q : QueryArgData) (tableName kcExpr : String)
    (kcNames : List (String × String)) (kcValues : List (String × WireVal)) :
    List (String × KwVal) :=
  indexKwargs
    (projectionKwargs
      [("TableName", .s tableName),
       ("Select", .s "SPECIFIC_ATTRIBUTES"),
       ("KeyConditionExpression", .s kcExpr),
       ("ExpressionAttributeNames", .names kcNames),
       ("ExpressionAttributeValues", .m kcValues),
       ("ConsistentRead", .b q.consistent),
       ("Limit", .i q.limit)]
      q.attributes)
    q.indexName

/-! ## Cancellation-reason parsing (`errors/transaction.py`)

`TransactionCanceledException._extract_reasons` runs
`re.search(r'reasons\W+\[([A-Za-z0-9, ]+)]', message, re.MULTILINE)`
(MULTILINE only affects `^`/`$`, absent here) and applies the two-step
split heuristic to the captured group.  The regex search is embedded
faithfully: the leftmost occurrence of the literal `reasons` after which
`\W+` (one or more non-word characters, tried greedily longest-first) is
followed by a literal `[`, a non-empty maximal run of `[A-Za-z0-9, ]`
characters and a literal `]` yields the first match; the group class does
not contain `]`, so no further backtracking arises inside the group. -/

/-- The exception classes appearing as cancellation reasons
(`errors/exceptions.py` defines the concrete classes; only their
identities matter here). -/
inductive ErrType where
  | conditionalCheckFailed
  | itemCollectionSizeLimitExceeded
  | transactionConflict
  | provisionedThroughputExceeded
  | throttlingError
  | validationError
  | clientError
  deriving DecidableEq

/-- `TransactionCanceledException._codes_to_exceptions` as an association
list. -/
def codesToExceptionsTable : List (String × ErrType) :=
  [("ConditionalCheckFailed", .conditionalCheckFailed),
   ("ItemCollectionSizeLimitExceeded", .itemCollectionSizeLimitExceeded),
   ("TransactionConflict", .transactionConflict),
   ("ProvisionedThroughputExceeded", .provisionedThroughputExceeded),
   ("ThrottlingError", .throttlingError),
   ("ValidationError", .validationError)]

/-- `self._codes_to_exceptions.get(r, ClientError)`. -/
def codeToException (r : String) : ErrType :=
  match (codesToExceptionsTable.find? (fun e => e.1 == r)) with
  | some e => e.2
  | none => .clientError

/-- A Python `\w` word character (ASCII model). -/
def isWordChar (c : Char) : Bool :=
  c.isAlphanum || c == '_'

/-- A character of the capture group class `[A-Za-z0-9, ]`. -/
def isGroupChar (c : Char) : Bool :=
  c.isAlphanum || c == ',' || c == ' '

/-- Match `([A-Za-z0-9, ]+)]` at the start of `cs`: the maximal non-empty
group run must be followed by a literal `]`. -/
def matchBracket (cs : List Char) : Option (List Char) :=
  let g := cs.takeWhile isGroupChar
  if g.isEmpty then none
  else
    match cs.drop g.length with
    | ']' :: _ => some g
    | _ => none

/-- Try `\W+\[` at the start of `cs` with `\W+` consuming exactly `j + 1`
characters for `j + 1 = k, k - 1, ..., 1` (greedy, longest first); the
caller starts `k` at the maximal non-word run length, so consumed
characters are always non-word. -/
def tryWsLen (cs : List Char) : Nat → Option (List Char)
  | 0 => none
  | j + 1 =>
      match (cs.drop (j + 1)).head? with
      | some '[' =>
          match matchBracket (cs.drop (j + 2)) with
          | some g => some g
          | none => tryWsLen cs j
      | _ => tryWsLen cs j

/-- `re.search`: scan left to right for an occurrence of `reasons` from
which the rest of the pattern matches; return the capture group. -/
def searchReasons : List Char → Option (List Char)
  | [] => none
  | c :: rest =>
      if (c :: rest).take 7 = "reasons".data then
        let after := (c :: rest).drop 7
        let maxW := (after.takeWhile (fun ch => !isWordChar ch)).length
        match tryWsLen after maxW with
        | some g => some g
        | none => searchReasons rest
      else
        searchReasons rest

/-- Python `str.split(sep)` for a non-empty separator, with fuel (one unit
per character, so `fuel = cs.length + 1` always suffices). -/
def pySplitAux (sep : List Char) (fuel : Nat) (cs : List Char)
    (acc : List Char) : List (List Char) :=
  match fuel with
  | 0 => [acc.reverse]
  | fuel + 1 =>
      match cs with
      | [] => [acc.reverse]
      | c :: rest =>
          if (c :: rest).take sep.length = sep then
            acc.reverse ::
              pySplitAux sep fuel ((c :: rest).drop sep.length) []
          else
            pySplitAux sep fuel rest (c :: acc)

/-- Python `s.split(sep)` for a non-empty separator. -/
def pySplit (s sep : String) : List String :=
  (pySplitAux sep.data (s.data.length + 1) s.data []).map String.mk

/-- `TransactionCanceledException._extract_reasons`: regex search, then
split the group on `', '`; if the first piece is the whole group (the
delimiter did not occur), re-split on `','`. -/
def extract_reasons (message : String) : List String :=
  match searchReasons message.data with
  | none => []
  | some g =>
      let reasons := String.mk g
      let split := pySplit reasons ", "
      if split.head? = some reasons then pySplit reasons ","
      else split

/-- The token-to-reason mapping inside `_get_reasons`: the literal token
`None` means no failure at that position, anything else goes through the
code table with `ClientError` as the default. -/
def mapToken (r : String) : Option ErrType :=
  if r = "None" then none else some (codeToException r)

/-- `TransactionCanceledException._get_reasons`: parse the message carried
in the error response; raise `ValueError` when the parsed list's length
does not match the number of op-args. -/
def get_reasons (opArgsLen : Nat) (message : String) :
    Except String (List (Option ErrType)) :=
  let res := (extract_reasons message).map mapToken
  if res.length ≠ opArgsLen then
    .error ("Transaction cancellation reasons do not match transaction " ++
      "arguments in error:\n" ++ message)
  else
    .ok res

/-! ## Helper lemmas -/

mutual

theorem rt_val : (v : Val) → deserialize_val (serialize_val v) = v
  | .str _ => rfl
  | .num _ => rfl
  | .bool _ => rfl
  | .bin _ => rfl
  | .null => rfl
  | .strSet _ => rfl
  | .list l => by
      rw [serialize_val, deserialize_val, rt_list l]
  | .map m => by
      rw [serialize_val, deserialize_val, rt_map m]

theorem rt_list : (l : ValList) → deserializeList (serializeList l) = l
  | .nil => rfl
  | .cons v vs => by
      rw [serializeList, deserializeList, rt_val v, rt_list vs]

theorem rt_map : (m : ValMap) → deserializeMap (serializeMap m) = m
  | .nil => rfl
  | .cons k v es => by
      rw [serializeMap, deserializeMap, rt_val v, rt_map es]

end

theorem rt_dict (d : List (String × Val)) :
    deserialize_dict (serialize_dict d) = d := by
  induction d with
  | nil => rfl
  | cons e es ih =>
      simp only [serialize_dict, deserialize_dict, List.map_cons, rt_val] at *
      exact congrArg _ ih

theorem dictGet_dictSet_self (d : List (String × α)) (k : String) (v : α) :
    dictGet (dictSet d k v) k = some v := by
  induction d with
  | nil => simp [dictSet, dictGet]
  | cons e es ih =>
      by_cases he : e.1 = k
      · simp [dictSet, dictGet, he]
      · simp [dictSet, dictGet, he, ih]

theorem dictGet_dictSet_ne (d : List (String × α)) (k k' : String) (v : α)
    (h : k' ≠ k) : dictGet (dictSet d k v) k' = dictGet d k' := by
  induction d with
  | nil =>
      have : ¬k = k' := fun hh => h hh.symm
      simp [dictSet, dictGet, this]
  | cons e es ih =>
      by_cases he : e.1 = k
      · have : ¬k = k' := fun hh => h hh.symm
        simp [dictSet, dictGet, he, this]
      · by_cases he2 : e.1 = k'
        · simp [dictSet, dictGet, he, he2, h]
        · simp [dictSet, dictGet, he, he2, ih]

theorem dictGet_map (f : α → β) (d : List (String × α)) (k : String) :
    dictGet (d.map (fun e => (e.1, f e.2))) k = (dictGet d k).map f := by
  induction d with
  | nil => simp [dictGet]
  | cons e es ih =>
      by_cases he : e.1 = k
      · simp [dictGet, he]
      · simp [dictGet, he, ih]

theorem dictMerge_one (a : List (String × α)) (k : String) (v : α) :
    dictMerge a [(k, v)] = dictSet a k v := rfl

theorem dictMerge_two (a : List (String × α)) (k1 k2 : String) (v1 v2 : α) :
    dictMerge a [(k1, v1), (k2, v2)] = dictSet (dictSet a k1 v1) k2 v2 := rfl

theorem takeWhile_all {α : Type} (p : α → Bool) (l : List α)
    (h : ∀ x ∈ l, p x = true) : l.takeWhile p = l := by
  induction l with
  | nil => rfl
  | cons x xs ih =>
      rw [List.takeWhile_cons_of_pos (h x (by simp))]
      exact congrArg _ (ih (fun y hy => h y (by simp [hy])))

theorem takeWhile_mid {α : Type} (p : α → Bool) (xs : List α) (y : α)
    (ys : List α) (hall : ∀ x ∈ xs, p x = true) (hy : p y = false) :
    (xs ++ y :: ys).takeWhile p = xs := by
  induction xs with
  | nil =>
      rw [List.nil_append]
      exact List.takeWhile_cons_of_neg (by simp [hy])
  | cons x xs ih =>
      rw [List.cons_append,
        List.takeWhile_cons_of_pos (hall x (by simp))]
      exact congrArg _ (ih (fun z hz => hall z (by simp [hz])))

theorem stripCore_nomatch (cs : List Char)
    (h : (cs.takeWhile isPreChar).isEmpty = true ∨
      (cs.drop (cs.takeWhile isPreChar).length).head? ≠ some '#') :
    stripCore cs = cs := by
  simp only [stripCore]
  rcases h with h | h
  · rw [if_pos h]
  · by_cases hrun : (cs.takeWhile isPreChar).isEmpty = true
    · rw [if_pos hrun]
    · rw [if_neg hrun, if_pos h]

theorem remove_nomatch (s : String) (h : hasEntityPre s = false) :
    remove_entity_pre s = s := by
  have h' : (s.data.takeWhile isPreChar).isEmpty = true ∨
      (s.data.drop (s.data.takeWhile isPreChar).length).head? ≠ some '#' := by
    by_cases h1 : (s.data.takeWhile isPreChar).isEmpty = true
    · exact Or.inl h1
    · right
      intro hc
      simp only [hasEntityPre, Bool.and_eq_false_iff, Bool.not_eq_false',
        beq_eq_false_iff_ne, ne_eq] at h
      rcases h with h | h
      · exact h1 h
      · exact h hc
  apply String.ext
  show stripCore s.data = s.data
  exact stripCore_nomatch s.data h'

theorem data_ne_nil (s : String) (h : s ≠ "") : s.data ≠ [] := by
  intro hd
  exact h (String.ext (show s.data = ("" : String).data from hd))

theorem stripCore_match (pc bc fin : List Char)
    (hp : pc ≠ []) (hall : ∀ c ∈ pc, isPreChar c = true)
    (hb : bc ≠ []) (hnl : ∀ c ∈ bc, (c != '\n') = true)
    (hfin : fin = [] ∨ fin = ['\n']) :
    stripCore (pc ++ '#' :: (bc ++ fin)) = bc := by
  have hrun : (pc ++ '#' :: (bc ++ fin)).takeWhile isPreChar = pc :=
    takeWhile_mid _ _ _ _ hall (by decide)
  have hdrop : (pc ++ '#' :: (bc ++ fin)).drop pc.length = '#' :: (bc ++ fin) :=
    List.drop_left _ _
  have hbody : (bc ++ fin).takeWhile (fun c => c != '\n') = bc := by
    rcases hfin with h | h
    · rw [h, List.append_nil]
      exact takeWhile_all _ _ hnl
    · rw [h]
      exact takeWhile_mid _ _ _ _ hnl (by decide)
  have hfin2 : (bc ++ fin).drop bc.length = fin := List.drop_left _ _
  have hpe : pc.isEmpty = false := by
    cases pc with
    | nil => exact absurd rfl hp
    | cons a l => rfl
  have hbe : bc.isEmpty = false := by
    cases bc with
    | nil => exact absurd rfl hb
    | cons a l => rfl
  simp only [stripCore, hrun, hdrop, List.head?_cons, List.tail_cons, hbody,
    hfin2]
  rw [if_neg (by simp [hpe]), if_neg (by simp), if_neg (by simp [hbe]),
    if_pos hfin]

theorem remove_match (p b t : String) (hp : p ≠ "")
    (hall : ∀ c ∈ p.data, isPreChar c = true) (hb : b ≠ "")
    (hnl : ∀ c ∈ b.data, (c != '\n') = true)
    (ht : t.data = [] ∨ t.data = ['\n']) :
    remove_entity_pre (p ++ "#" ++ b ++ t) = b := by
  apply String.ext
  show stripCore (p ++ "#" ++ b ++ t).data = b.data
  have hdata : (p ++ "#" ++ b ++ t).data =
      p.data ++ '#' :: (b.data ++ t.data) := by
    simp [String.data_append, List.append_assoc]
  rw [hdata]
  exact stripCore_match p.data b.data t.data (data_ne_nil p hp) hall
    (data_ne_nil b hb) hnl ht

theorem stripCore_hash_end (pc : List Char)
    (hall : ∀ c ∈ pc, isPreChar c = true) :
    stripCore (pc ++ ['#']) = pc ++ ['#'] := by
  by_cases hp : pc = []
  · subst hp
    rfl
  · have hrun : (pc ++ ['#']).takeWhile isPreChar = pc :=
      takeWhile_mid _ _ '#' [] hall (by decide)
    have hdrop : (pc ++ ['#']).drop pc.length = ['#'] := List.drop_left _ _
    have hpe : pc.isEmpty = false := by
      cases pc with
      | nil => exact absurd rfl hp
      | cons a l => rfl
    simp only [stripCore, hrun, hdrop, List.head?_cons, List.tail_cons]
    rw [if_neg (by simp [hpe]), if_neg (by simp), if_pos (by rfl)]

theorem remove_hash_end (p : String)
    (hall : ∀ c ∈ p.data, isPreChar c = true) :
    remove_entity_pre (p ++ "#") = p ++ "#" := by
  apply String.ext
  show stripCore (p ++ "#").data = (p ++ "#").data
  have hdata : (p ++ "#").data = p.data ++ ['#'] := by
    simp [String.data_append]
  rw [hdata]
  exact stripCore_hash_end p.data hall

theorem takeWhile_le_mid {α : Type} (p : α → Bool) (xs : List α) (y : α)
    (ys : List α) (hy : p y = false) :
    ((xs ++ y :: ys).takeWhile p).length ≤ xs.length := by
  induction xs with
  | nil =>
      rw [List.nil_append, List.takeWhile_cons_of_neg (by simp [hy])]
  | cons x xs ih =>
      rw [List.cons_append]
      by_cases hx : p x = true
      · rw [List.takeWhile_cons_of_pos hx, List.length_cons,
          List.length_cons]
        exact Nat.succ_le_succ ih
      · rw [List.takeWhile_cons_of_neg (by simp [hx])]
        simp

theorem stripCore_internal_newline (pc b1c b2c : List Char)
    (hall : ∀ c ∈ pc, isPreChar c = true) (hb2 : b2c ≠ []) :
    stripCore (pc ++ '#' :: (b1c ++ '\n' :: b2c)) =
      pc ++ '#' :: (b1c ++ '\n' :: b2c) := by
  by_cases hp : pc = []
  · subst hp
    rw [List.nil_append]
    apply stripCore_nomatch
    left
    rw [List.takeWhile_cons_of_neg (by decide)]
    rfl
  · have hpe : pc.isEmpty = false := by
      cases pc with
      | nil => exact absurd rfl hp
      | cons a l => rfl
    have hrun : (pc ++ '#' :: (b1c ++ '\n' :: b2c)).takeWhile isPreChar
        = pc := takeWhile_mid _ _ _ _ hall (by decide)
    have hdrop : (pc ++ '#' :: (b1c ++ '\n' :: b2c)).drop pc.length
        = '#' :: (b1c ++ '\n' :: b2c) := List.drop_left _ _
    have hlen2 : 2 ≤ ((b1c ++ '\n' :: b2c).drop
        ((b1c ++ '\n' :: b2c).takeWhile (fun c => c != '\n')).length).length
        := by
      rw [List.length_drop]
      have h1 : (b1c ++ '\n' :: b2c).length =
          b1c.length + (b2c.length + 1) := by
        simp [List.length_append]
      have h2 := takeWhile_le_mid (fun c => c != '\n') b1c '\n' b2c
        (by decide)
      have h3 : 0 < b2c.length := List.length_pos.mpr hb2
      omega
    have hne1 : (b1c ++ '\n' :: b2c).drop
        ((b1c ++ '\n' :: b2c).takeWhile (fun c => c != '\n')).length ≠ []
        := by
      intro h
      rw [h] at hlen2
      simp at hlen2
    have hne2 : (b1c ++ '\n' :: b2c).drop
        ((b1c ++ '\n' :: b2c).takeWhile (fun c => c != '\n')).length ≠ ['\n']
        := by
      intro h
      rw [h] at hlen2
      simp at hlen2
    simp only [stripCore, hrun, hdrop, List.head?_cons, List.tail_cons]
    rw [if_neg (by simp [hpe]), if_neg (by simp)]
    by_cases hbe : ((b1c ++ '\n' :: b2c).takeWhile
        (fun c => c != '\n')).isEmpty = true
    · rw [if_pos hbe]
    · rw [if_neg hbe, if_neg (not_or.mpr ⟨hne1, hne2⟩)]

theorem remove_internal_newline (p b1 b2 : String)
    (hall : ∀ c ∈ p.data, isPreChar c = true) (hb2 : b2 ≠ "") :
    remove_entity_pre (p ++ "#" ++ b1 ++ "\n" ++ b2) =
      p ++ "#" ++ b1 ++ "\n" ++ b2 := by
  apply String.ext
  show stripCore (p ++ "#" ++ b1 ++ "\n" ++ b2).data =
    (p ++ "#" ++ b1 ++ "\n" ++ b2).data
  have hdata : (p ++ "#" ++ b1 ++ "\n" ++ b2).data =
      p.data ++ '#' :: (b1.data ++ '\n' :: b2.data) := by
    simp [String.data_append, List.append_assoc]
  rw [hdata]
  exact stripCore_internal_newline p.data b1.data b2.data hall
    (data_ne_nil b2 hb2)

/-- Invariant of the batch-get key map: every stored value has the same
tuple as its dict key (inserts store the key itself, and replacing inserts
only happen under tuple equality). -/
def KeyMapInv (m : List (PrimaryKey × PrimaryKey)) : Prop :=
  ∀ e ∈ m, PrimaryKey.tuple e.2 = PrimaryKey.tuple e.1

theorem keyMapInsert_inv (m : List (PrimaryKey × PrimaryKey))
    (k : PrimaryKey) (h : KeyMapInv m) : KeyMapInv (keyMapInsert m k) := by
  induction m with
  | nil =>
      intro x hx
      simp only [keyMapInsert, List.mem_singleton] at hx
      subst hx
      rfl
  | cons e es ih =>
      by_cases hk : primaryEq e.1 k
      · intro x hx
        simp only [keyMapInsert, if_pos hk] at hx
        rcases List.mem_cons.mp hx with hx | hx
        · subst hx
          have : e.1.tuple = k.tuple := of_decide_eq_true hk
          simp [this]
        · exact h x (List.mem_cons_of_mem _ hx)
      · intro x hx
        simp only [keyMapInsert, if_neg hk] at hx
        rcases List.mem_cons.mp hx with hx | hx
        · rw [hx]
          exact h e (List.mem_cons_self _ _)
        · exact ih (fun y hy => h y (List.mem_cons_of_mem _ hy)) x hx

theorem keyMapInsert_keys (m : List (PrimaryKey × PrimaryKey))
    (k : PrimaryKey) (t : String × String)
    (h : (∃ e ∈ m, PrimaryKey.tuple e.1 = t) ∨ PrimaryKey.tuple k = t) :
    ∃ e ∈ keyMapInsert m k, PrimaryKey.tuple e.1 = t := by
  induction m with
  | nil =>
      rcases h with ⟨e, he, _⟩ | h
      · simp at he
      · exact ⟨(k, k), by simp [keyMapInsert], h⟩
  | cons e es ih =>
      by_cases hk : primaryEq e.1 k
      · have hek : e.1.tuple = k.tuple := of_decide_eq_true hk
        simp only [keyMapInsert, if_pos hk]
        rcases h with ⟨x, hx, hxt⟩ | h
        · rcases List.mem_cons.mp hx with hx | hx
          · exact ⟨(e.1, k), List.mem_cons_self _ _, by
              rw [← hxt, hx]⟩
          · exact ⟨x, List.mem_cons_of_mem _ hx, hxt⟩
        · exact ⟨(e.1, k), List.mem_cons_self _ _, by rw [hek, h]⟩
      · simp only [keyMapInsert, if_neg hk]
        rcases h with ⟨x, hx, hxt⟩ | h
        · rcases List.mem_cons.mp hx with hx | hx
          · exact ⟨e, List.mem_cons_self _ _, hx ▸ hxt⟩
          · obtain ⟨y, hy, hyt⟩ := ih (Or.inl ⟨x, hx, hxt⟩)
            exact ⟨y, List.mem_cons_of_mem _ hy, hyt⟩
        · obtain ⟨y, hy, hyt⟩ := ih (Or.inr h)
          exact ⟨y, List.mem_cons_of_mem _ hy, hyt⟩

theorem foldl_keyMap_inv (ks : List PrimaryKey)
    (m : List (PrimaryKey × PrimaryKey)) (h : KeyMapInv m) :
    KeyMapInv (ks.foldl keyMapInsert m) := by
  induction ks generalizing m with
  | nil => exact h
  | cons k ks ih => exact ih _ (keyMapInsert_inv m k h)

theorem foldl_keyMap_keys (ks : List PrimaryKey)
    (m : List (PrimaryKey × PrimaryKey)) (t : String × String)
    (h : (∃ e ∈ m, PrimaryKey.tuple e.1 = t) ∨
      (∃ k ∈ ks, PrimaryKey.tuple k = t)) :
    ∃ e ∈ ks.foldl keyMapInsert m, PrimaryKey.tuple e.1 = t := by
  induction ks generalizing m with
  | nil =>
      rcases h with h | ⟨k, hk, _⟩
      · exact h
      · simp at hk
  | cons k ks ih =>
      rcases h with h | ⟨x, hx, hxt⟩
      · exact ih _ (Or.inl (keyMapInsert_keys m k t (Or.inl h)))
      · rcases List.mem_cons.mp hx with hx | hx
        · subst hx
          exact ih _ (Or.inl (keyMapInsert_keys m x t (Or.inr hxt)))
        · exact ih _ (Or.inr ⟨x, hx, hxt⟩)

theorem lookupKeyMap_of_mem (m : List (PrimaryKey × PrimaryKey))
    (t : String × String) (hinv : KeyMapInv m)
    (h : ∃ e ∈ m, PrimaryKey.tuple e.1 = t) :
    ∃ k, lookupKeyMap m t = some k ∧ PrimaryKey.tuple k = t := by
  induction m with
  | nil =>
      obtain ⟨e, he, _⟩ := h
      simp at he
  | cons e es ih =>
      by_cases he : primaryEqTuple e.1 t
      · refine ⟨e.2, by simp [lookupKeyMap, he], ?_⟩
        rw [hinv e (List.mem_cons_self _ _)]
        exact of_decide_eq_true he
      · obtain ⟨x, hx, hxt⟩ := h
        rcases List.mem_cons.mp hx with hx | hx
        · exact absurd (decide_eq_true (hx ▸ hxt)) he
        · obtain ⟨k, hk, hkt⟩ :=
            ih (fun y hy => hinv y (List.mem_cons_of_mem _ hy)) ⟨x, hx, hxt⟩
          exact ⟨k, by simp [lookupKeyMap, he, hk], hkt⟩

/-! ## Claim theorems -/

/-- C1: Cancellation-reason parsing: `reasons [ConditionalCheckFailed,
None]` with two op-args parses to the reason list
`[ConditionalCheckFailedException, None]`; the no-space rendering parses
to the same list (split on comma-space first, falling back to a bare
comma); the literal token `None` maps to no-failure, every known token
maps through the fixed code table, an unrecognized token maps to the base
`ClientError` type and no token is ever dropped; with zero op-args and an
empty message the parsed reason list is empty. -/
theorem cancellation_reason_parsing :
    get_reasons 2 "reasons [ConditionalCheckFailed, None]" =
      .ok [some .conditionalCheckFailed, none] ∧
    get_reasons 2 "reasons [ConditionalCheckFailed,None]" =
      .ok [some .conditionalCheckFailed, none] ∧
    get_reasons 0 "" = .ok [] ∧
    (∀ p ∈ codesToExceptionsTable, mapToken p.1 = some p.2) ∧
    mapToken "None" = none ∧
    (∀ tok : String, tok ≠ "None" →
      (∀ p ∈ codesToExceptionsTable, p.1 ≠ tok) →
      mapToken tok = some .clientError) ∧
    (∀ msg : String,
      ((extract_reasons msg).map mapToken).length =
        (extract_reasons msg).length) := by
  refine ⟨rfl, rfl, rfl, by decide, rfl, ?_, fun msg => List.length_map _ _⟩
  intro tok hne hnot
  simp only [mapToken, if_neg hne, codeToException]
  have hfind : codesToExceptionsTable.find? (fun e => e.1 == tok) = none :=
    List.find?_eq_none.mpr (fun x hx => by simpa using hnot x hx)
  rw [hfind]

/-- Witness for C1 at concrete inputs. -/
theorem cancellation_reason_parsing_witness :
    mapToken "ThrottlingError" = some .throttlingError ∧
    mapToken "UnknownCode" = some .clientError :=
  ⟨cancellation_reason_parsing.2.2.2.1 ("ThrottlingError", .throttlingError)
      (by decide),
   cancellation_reason_parsing.2.2.2.2.2.1 "UnknownCode" (by decide)
      (by decide)⟩

/-- C2: if the number of parsed reason tokens differs from the number of
op-args, accessing the parsed reasons fails with a ValueError, never
returning a truncated, padded or partial list: a successful parse always
has exactly one reason per op-arg, and any length mismatch produces an
error. -/
theorem reasons_length_mismatch_error :
    ∀ (opArgsLen : Nat) (message : String),
      (∀ l, get_reasons opArgsLen message = .ok l →
        l.length = opArgsLen) ∧
      (((extract_reasons message).map mapToken).length ≠ opArgsLen →
        ∃ e, get_reasons opArgsLen message = .error e) := by
  intro n msg
  constructor
  · intro l hl
    simp only [get_reasons] at hl
    split at hl
    · cases hl
    · rename_i hlen
      cases hl
      exact not_ne_iff.mp hlen
  · intro hne
    simp only [get_reasons]
    rw [if_pos hne]
    exact ⟨_, rfl⟩

/-- Witness for C2: one op-arg with an empty diagnostic message is a
length mismatch, so parsing errors. -/
theorem reasons_length_mismatch_error_witness :
    ∃ e, get_reasons 1 "" = Except.error e :=
  (reasons_length_mismatch_error 1 "").2 (by decide)

/-- C3: value-codec round-trip: `deserialize_val (serialize_val v) = v`
for every supported value, and the dictionary-preserving variants
round-trip every supported dictionary while preserving top-level keys. -/
theorem serializer_round_trip :
    (∀ v : Val, deserialize_val (serialize_val v) = v) ∧
    (∀ d : List (String × Val), deserialize_dict (serialize_dict d) = d) :=
  ⟨rt_val, rt_dict⟩

/-- C5: for every concrete entity name N and string s,
`str(PartitionKey(N, s))` is `N.to_prefix() + s` where the prefix is the
uppercase class name plus a hash mark; `PartitionKey(N, s)` equals
`SortKey(N, s)` and cross-variant equality holds exactly when string
forms match; the hash is derived from the string form consistently with
equality; and `str(PrefixSortKey(N))` with no value is exactly
`N.to_prefix()`. -/
theorem entity_key_string_form :
    (∀ (n : EntityName) (s : String),
      strKey (PartitionKey n s) = n.toPre ++ s) ∧
    (∀ n : EntityName, n.toPre = pyUpper n.name ++ "#") ∧
    (∀ (n : EntityName) (s : String),
      keyEq (PartitionKey n s) (SortKey n s) = true) ∧
    (∀ a b : EntityKey, keyEq a b = true ↔ strKey a = strKey b) ∧
    (∀ a b : EntityKey, strKey a = strKey b → hashKey a = hashKey b) ∧
    (∀ a : EntityKey, hashKey a = pyHashStr (strKey a)) ∧
    (∀ n : EntityName, strKey (PrefixSortKey n) = n.toPre) := by
  refine ⟨fun n s => rfl, fun n => rfl, ?_, ?_, ?_, fun a => rfl, ?_⟩
  · intro n s
    simp [keyEq, strKey, PartitionKey, SortKey]
  · intro a b
    simp [keyEq, beq_iff_eq]
  · intro a b h
    rw [hashKey, hashKey, h]
  · intro n
    simp [strKey, PrefixSortKey]

/-- Witness for C5: the hash-consistency clause at a concrete partition
and sort key with equal string forms. -/
theorem entity_key_string_form_witness :
    hashKey (PartitionKey ⟨"User"⟩ "x") = hashKey (SortKey ⟨"User"⟩ "x") :=
  entity_key_string_form.2.2.2.2.1 _ _ rfl

/-- C10: `EntityKey.__eq__` compares string representations for an
operand of any type: a key equals the plain string given by its prefix
plus value (and any operand whose string representation equals the key's
string form), and never equals a string differing from its string
form. -/
theorem key_eq_any_object :
    (∀ (n : EntityName) (s : String),
      keyEqAny (PartitionKey n s) (n.toPre ++ s) = true) ∧
    (∀ (k : EntityKey) (r : String),
      keyEqAny k r = true ↔ strKey k = r) ∧
    (∀ (k : EntityKey) (t : String),
      t ≠ strKey k → keyEqAny k t = false) := by
  refine ⟨?_, ?_, ?_⟩
  · intro n s
    simp [keyEqAny, strKey, PartitionKey]
  · intro k r
    simp [keyEqAny, beq_iff_eq]
  · intro k t h
    simp [keyEqAny, beq_eq_false_iff_ne]
    exact fun hh => h hh.symm

/-- Witness for C10 at a concrete key and differing string. -/
theorem key_eq_any_object_witness :
    keyEqAny (PartitionKey ⟨"User"⟩ "x") "USER#y" = false :=
  key_eq_any_object.2.2 _ "USER#y" (by decide)

/-- C8: `PrimaryKey` equality is tuple-of-string-forms equality against
another `PrimaryKey`, holds against the plain 2-tuple of its string
forms, the hash equals the tuple hash of the string forms, and a store
response key arriving as a raw string pair maps back through `batch_get`'s
key map to an original `PrimaryKey` with that tuple. -/
theorem primary_key_equality_hash :
    (∀ a b : PrimaryKey, primaryEq a b = true ↔
      PrimaryKey.tuple a = PrimaryKey.tuple b) ∧
    (∀ pk sk : EntityKey,
      primaryEqTuple ⟨pk, sk⟩ (strKey pk, strKey sk) = true) ∧
    (∀ (a : PrimaryKey) (t : String × String),
      primaryEqTuple a t = true ↔ PrimaryKey.tuple a = t) ∧
    (∀ pk sk : EntityKey,
      hashPrimaryKey ⟨pk, sk⟩ = pyHashPair (strKey pk, strKey sk)) ∧
    (∀ (ks : List PrimaryKey) (t : String × String),
      (∃ k ∈ ks, PrimaryKey.tuple k = t) →
      ∃ k, lookupKeyMap (buildKeyMap ks) t = some k ∧
        PrimaryKey.tuple k = t) := by
  refine ⟨?_, ?_, ?_, fun pk sk => rfl, ?_⟩
  · intro a b
    simp [primaryEq]
  · intro pk sk
    simp [primaryEqTuple, PrimaryKey.tuple]
  · intro a t
    simp [primaryEqTuple]
  · intro ks t h
    exact lookupKeyMap_of_mem _ t
      (foldl_keyMap_inv ks [] (fun e he => by simp at he))
      (foldl_keyMap_keys ks [] t (Or.inr h))

/-- Witness for C8: a single requested key is found again by its raw
string pair. -/
theorem primary_key_equality_hash_witness :
    ∃ k, lookupKeyMap
        (buildKeyMap [⟨PartitionKey ⟨"U"⟩ "a", SortKey ⟨"U"⟩ "b"⟩])
        ("U#a", "U#b") = some k ∧
      PrimaryKey.tuple k = ("U#a", "U#b") :=
  primary_key_equality_hash.2.2.2.2 _ _
    ⟨⟨PartitionKey ⟨"U"⟩ "a", SortKey ⟨"U"⟩ "b"⟩, by decide, by decide⟩

/-- C4 counterexample: the claim says stripping removes only the leading
prefix, but for `USER#a\n` the code also drops the trailing newline (the
regex `$` matches just before a final newline), returning `a` instead of
`a\n`. -/
theorem strip_trailing_newline_cex :
    remove_entity_pre "USER#a\n" = "a" ∧
    remove_entity_pre "USER#a\n" ≠ "a\n" := by
  exact ⟨by decide, by decide⟩

/-- C4 amended: stripping removes the leading `[A-Z0-9_]+#` prefix when
the remainder is non-empty and newline-free except for at most one
trailing newline, which is dropped together with the prefix; any string
without such a prefix is returned unchanged (so stripping is idempotent
on non-prefixed strings); a prefixed string whose remainder is empty, or
carries a newline anywhere before its final character, is also returned
unchanged; and stripping is applied independently per top-level string
attribute. -/
theorem strip_prefix_amended :
    (∀ s : String, hasEntityPre s = false →
      remove_entity_pre s = s ∧
      remove_entity_pre (remove_entity_pre s) = remove_entity_pre s) ∧
    (∀ p b : String, p ≠ "" → (∀ c ∈ p.data, isPreChar c = true) →
      b ≠ "" → (∀ c ∈ b.data, (c != '\n') = true) →
      remove_entity_pre (p ++ "#" ++ b) = b ∧
      remove_entity_pre (p ++ "#" ++ b ++ "\n") = b) ∧
    (∀ p : String, (∀ c ∈ p.data, isPreChar c = true) →
      remove_entity_pre (p ++ "#") = p ++ "#") ∧
    (∀ p b1 b2 : String, (∀ c ∈ p.data, isPreChar c = true) → b2 ≠ "" →
      remove_entity_pre (p ++ "#" ++ b1 ++ "\n" ++ b2) =
        p ++ "#" ++ b1 ++ "\n" ++ b2) ∧
    (∀ (items : List (String × Val)) (k s : String),
      dictGet items k = some (.str s) →
      dictGet (strip_prefixes items) k =
        some (.str (remove_entity_pre s))) := by
  refine ⟨?_, ?_, ?_, ?_, ?_⟩
  · intro s h
    have h1 := remove_nomatch s h
    exact ⟨h1, by rw [h1]; exact h1⟩
  · intro p b hp hall hb hnl
    constructor
    · have h0 := remove_match p b "" hp hall hb hnl (Or.inl rfl)
      simpa using h0
    · exact remove_match p b "\n" hp hall hb hnl (Or.inr rfl)
  · intro p hall
    exact remove_hash_end p hall
  · intro p b1 b2 hall hb2
    exact remove_internal_newline p b1 b2 hall hb2
  · intro items k s h
    rw [strip_prefixes, dictGet_map stripVal items k, h]
    rfl

/-- Witness for C4 amended at concrete strings and item, including the
unchanged empty-remainder and internally-newlined-remainder cases. -/
theorem strip_prefix_amended_witness :
    remove_entity_pre "abc" = "abc" ∧
    remove_entity_pre "USER#a" = "a" ∧
    remove_entity_pre "USER#" = "USER#" ∧
    remove_entity_pre "USER#a\nb" = "USER#a\nb" ∧
    dictGet (strip_prefixes [("PK", Val.str "USER#a")]) "PK" =
      some (Val.str (remove_entity_pre "USER#a")) :=
  ⟨(strip_prefix_amended.1 "abc" (by decide)).1,
   (strip_prefix_amended.2.1 "USER" "a" (by decide) (by decide) (by decide)
      (by decide)).1,
   strip_prefix_amended.2.2.1 "USER" (by decide),
   strip_prefix_amended.2.2.2.1 "USER" "a" "b" (by decide) (by decide),
   strip_prefix_amended.2.2.2.2 _ "PK" "USER#a" (by decide)⟩

/-- C9: a string that is exactly an uppercase prefix followed by a hash
mark with nothing after it is returned unchanged (the stripped remainder
must be non-empty), and for a string carrying two stacked prefixes only
the first prefix is removed. -/
theorem strip_edge_cases :
    (∀ p : String, p ≠ "" → (∀ c ∈ p.data, isPreChar c = true) →
      remove_entity_pre (p ++ "#") = p ++ "#") ∧
    (∀ p1 p2 r : String, p1 ≠ "" →
      (∀ c ∈ p1.data, isPreChar c = true) →
      p2 ≠ "" → (∀ c ∈ p2.data, isPreChar c = true) →
      r ≠ "" → (∀ c ∈ r.data, (c != '\n') = true) →
      remove_entity_pre (p1 ++ "#" ++ (p2 ++ "#" ++ r)) =
        p2 ++ "#" ++ r) := by
  constructor
  · intro p _ hall
    exact remove_hash_end p hall
  · intro p1 p2 r hp1 hall1 hp2 hall2 hr hnl
    have hb : p2 ++ "#" ++ r ≠ "" := by
      intro hh
      have hd : (p2 ++ "#" ++ r).data = [] := by rw [hh]
      simp [String.data_append] at hd
    have hbnl : ∀ c ∈ (p2 ++ "#" ++ r).data, (c != '\n') = true := by
      intro c hc
      simp only [String.data_append, List.mem_append] at hc
      rcases hc with hc | hc
      · rcases hc with hc | hc
        · rw [bne_iff_ne]
          intro hcn
          subst hcn
          exact absurd (hall2 _ hc) (by decide)
        · have hc' : c = '#' := by simpa using hc
          subst hc'
          decide
      · exact hnl c hc
    have h0 := remove_match p1 (p2 ++ "#" ++ r) "" hp1 hall1 hb hbnl
      (Or.inl rfl)
    simpa using h0

/-- Witness for C9 at `USER#` and `USER#ORDER#x`. -/
theorem strip_edge_cases_witness :
    remove_entity_pre "USER#" = "USER#" ∧
    remove_entity_pre "USER#ORDER#x" = "ORDER#x" :=
  ⟨strip_edge_cases.1 "USER" (by decide) (by decide),
   strip_edge_cases.2 "USER" "ORDER" "x" (by decide) (by decide) (by decide)
      (by decide) (by decide) (by decide)⟩

/-- C6: every built put/insert wire item carries a `CreatedAt` attribute
stamped with the second-granularity ISO-8601 UTC timestamp of the build
time, every update's attribute updates carry an `UpdatedAt` attribute
likewise stamped as a PUT-style update, the stamp wins over a
caller-supplied attribute of the same name, and the stamp ignores the
microsecond field (second granularity). -/
theorem timestamp_stamping :
    (∀ (now : PyDateTime) (pkName skName : String) (pk sk : EntityKey)
      (attrs : Option (List (String × Val))),
      pkName ≠ "CreatedAt" → skName ≠ "CreatedAt" →
      dictGet (put_get_dynamo_item now pkName skName pk sk attrs)
        "CreatedAt" = some (.S (iso_now now))) ∧
    (∀ (now : PyDateTime) (attrs : Option (List (String × Val))),
      dictGet (update_get_attr_updates now attrs) "UpdatedAt" =
        some ⟨"PUT", .S (iso_now now)⟩) ∧
    (∀ (t : PyDateTime) (us : Nat),
      iso_now { t with microsecond := us } = iso_now t) := by
  have hstamp : ∀ (stamp : String × Val)
      (attrs : Option (List (String × Val))),
      dictGet (stampItem stamp attrs) stamp.1 = some stamp.2 := by
    intro stamp attrs
    cases attrs with
    | none => simp [stampItem, dictGet]
    | some a =>
        by_cases ha : a.isEmpty
        · simp only [stampItem, if_pos ha]
          simp [dictGet]
        · simp only [stampItem, if_neg ha, dictMerge_one]
          exact dictGet_dictSet_self a stamp.1 stamp.2
  refine ⟨?_, ?_, fun t us => rfl⟩
  · intro now pkName skName pk sk attrs hpk hsk
    simp only [put_get_dynamo_item, PrimaryKey.serializeKey]
    by_cases hps : (pkName == skName) = true
    · rw [if_pos hps, dictMerge_one,
        dictGet_dictSet_ne _ _ _ _ (Ne.symm hpk), serialize_dict,
        dictGet_map serialize_val,
        hstamp ("CreatedAt", .str (iso_now now)) attrs]
      rfl
    · rw [if_neg hps, dictMerge_two,
        dictGet_dictSet_ne _ _ _ _ (Ne.symm hsk),
        dictGet_dictSet_ne _ _ _ _ (Ne.symm hpk), serialize_dict,
        dictGet_map serialize_val,
        hstamp ("CreatedAt", .str (iso_now now)) attrs]
      rfl
  · intro now attrs
    simp only [update_get_attr_updates]
    rw [dictGet_map (fun v => (⟨"PUT", serialize_val v⟩ : AttrUpdate)),
      hstamp ("UpdatedAt", .str (iso_now now)) attrs]
    rfl

/-- Witness for C6: concrete build time, index names and a caller attempt
to supply `CreatedAt`, which the stamp overrides. -/
theorem timestamp_stamping_witness :
    dictGet (put_get_dynamo_item ⟨2020, 2, 15, 19, 9, 38, 123⟩ "PK" "SK"
        (PartitionKey ⟨"U"⟩ "a") (SortKey ⟨"U"⟩ "b")
        (some [("CreatedAt", Val.str "caller-supplied")])) "CreatedAt" =
      some (.S (iso_now ⟨2020, 2, 15, 19, 9, 38, 123⟩)) :=
  timestamp_stamping.1 ⟨2020, 2, 15, 19, 9, 38, 123⟩ "PK" "SK"
    (PartitionKey ⟨"U"⟩ "a") (SortKey ⟨"U"⟩ "b")
    (some [("CreatedAt", Val.str "caller-supplied")]) (by decide) (by decide)

/-- C7: constructing a query argument with a limit above 1000 fails with a
ValueError, `limit=1000` succeeds, an omitted limit defaults to 1000, and
the built wire parameters carry the stored limit. -/
theorem query_limit_construction :
    (∀ (a : Option (List String)) (c : Bool) (i : Option String) (l : Int),
      l > 1000 → ∃ e, mkQueryArg a c i (some l) = .error e) ∧
    (∀ (a : Option (List String)) (c : Bool) (i : Option String),
      mkQueryArg a c i (some 1000) = .ok ⟨a, c, i, 1000⟩) ∧
    (∀ (a : Option (List String)) (c : Bool) (i : Option String),
      mkQueryArg a c i none = .ok ⟨a, c, i, 1000⟩) ∧
    (∀ (q : QueryArgData) (tn ke : String) (kn : List (String × String))
      (kv : List (String × WireVal)),
      dictGet (query_get_kwargs q tn ke kn kv) "Limit" =
        some (.i q.limit)) := by
  refine ⟨?_, ?_, fun a c i => rfl, ?_⟩
  · intro a c i l h
    simp only [mkQueryArg, queryMaxLimit]
    rw [if_pos h]
    exact ⟨_, rfl⟩
  · intro a c i
    rfl
  · intro q tn ke kn kv
    have hproj : ∀ (d : List (String × KwVal)) (o : Option (List String)),
        dictGet (projectionKwargs d o) "Limit" = dictGet d "Limit" := by
      intro d o
      cases o with
      | none =>
          simp only [projectionKwargs]
          exact dictGet_dictSet_ne _ _ _ _ (by decide)
      | some attrs =>
          by_cases ha : attrs.isEmpty
          · simp only [projectionKwargs, if_pos ha]
            exact dictGet_dictSet_ne _ _ _ _ (by decide)
          · simp only [projectionKwargs, if_neg ha]
            exact dictGet_dictSet_ne _ _ _ _ (by decide)
    have hindex : ∀ (d : List (String × KwVal)) (o : Option String),
        dictGet (indexKwargs d o) "Limit" = dictGet d "Limit" := by
      intro d o
      cases o with
      | none => rfl
      | some n =>
          simp only [indexKwargs]
          exact dictGet_dictSet_ne _ _ _ _ (by decide)
    rw [query_get_kwargs, hindex, hproj]
    rfl

/-- Witness for C7: `limit=1001` is rejected. -/
theorem query_limit_construction_witness :
    ∃ e, mkQueryArg none false none (some 1001) = Except.error e :=
  query_limit_construction.1 none false none 1001 (by decide)
